import Mathlib

/-!
Verification of the ignore-rule engine of the xvc walker
(`src/walker/src/pattern.rs`, `src/walker/src/ignore_rules.rs`).

Paths are modelled as lists of components (`List String`), mirroring the
component-wise behaviour of Rust's `Path::strip_prefix`, `Path::parent` and
`Path::starts_with`; converting a relative path to a string joins the
components with `/`, mirroring `to_string_lossy` on Unix.  The filesystem
query `path.is_dir()` is modelled as an explicit boolean argument.  Rust
strings are modelled through their character lists; the byte-wise `str`
operations used by the source agree with the character-wise ones for every
construct involved (Rust's Unicode whitespace predicate in `trim`/`trim_end`
is modelled by `Char.isWhitespace`, which agrees on all ASCII input).
Panics (`expect`) are modelled by `Option`: `none` is the panic.  The `Arc<RwLock<_>>` wrappers around the pattern list carry no
logical content for the sequential functions verified here and are dropped.
-/

set_option maxHeartbeats 1600000

namespace XvcWalker

/-! ## String helpers (models of the Rust `str` methods used by the source) -/

/-- Model of Rust `str::ends_with` (suffix test). -/
def strEndsWith (s t : String) : Bool := t.data.isSuffixOf s.data

/-- Model of Rust `str::starts_with` (prefix test). -/
def strStartsWith (s t : String) : Bool := t.data.isPrefixOf s.data

/-- Model of Rust slicing `&s[n..]` at a character boundary. -/
def strDrop (s : String) (n : Nat) : String := String.mk (s.data.drop n)

/-- Model of Rust slicing `&s[..len-n]` at a character boundary. -/
def strDropRight (s : String) (n : Nat) : String :=
  String.mk (s.data.take (s.data.length - n))

/-- Model of Rust `str::contains(char)`. -/
def strContains (s : String) (c : Char) : Bool := s.data.contains c

/-- Model of Rust `str::trim_end` (drop trailing whitespace). -/
def strTrimRight (s : String) : String :=
  String.mk ((s.data.reverse.dropWhile Char.isWhitespace).reverse)

/-- Model of Rust `str::trim` (drop leading and trailing whitespace). -/
def strTrim (s : String) : String :=
  String.mk (((s.data.dropWhile Char.isWhitespace).reverse.dropWhile
    Char.isWhitespace).reverse)

/-- Model of Rust `str::trim_end_matches('/')` (drop every trailing slash). -/
def trimTrailingSlashes (s : String) : String :=
  String.mk ((s.data.reverse.dropWhile (fun c => c == '/')).reverse)

/-- Join character lists with a `/` separator. -/
def joinSlashL : List (List Char) → List Char
  | [] => []
  | [x] => x
  | x :: xs => x ++ '/' :: joinSlashL xs

/-- `to_string_lossy` of a relative path given by its components. -/
def joinSlash (l : List String) : String := String.mk (joinSlashL (l.map String.data))

/-- Split a character list at every newline (keeping empty pieces). -/
def splitNL : List Char → List (List Char)
  | [] => [[]]
  | c :: rest =>
    match splitNL rest with
    | [] => [[c]]
    | h :: t => if c == '\n' then [] :: h :: t else (c :: h) :: t

/-- Drop one trailing carriage return, as each line of Rust `str::lines` does. -/
def dropCR (l : List Char) : List Char :=
  match l.getLast? with
  | some c => if c == '\r' then l.dropLast else l
  | none => l

/-- Model of Rust `str::lines`: split on `\n`, no trailing empty line, and a
trailing `\r` stripped from each line. -/
def rustLines (s : String) : List String :=
  let parts := splitNL s.data
  let parts := if parts.getLast? == some [] then parts.dropLast else parts
  parts.map (fun l => String.mk (dropCR l))

/-- Pair each element with its position, the way Rust `iter().enumerate()`
numbers a vector from `n`. -/
def withIdx {α : Type} : Nat → List α → List (Nat × α)
  | _, [] => []
  | n, a :: l => (n, a) :: withIdx (n + 1) l

/-- Model of Rust `Path::strip_prefix` on component lists (`Ok` ↦ `some`). -/
def stripPrefixL (pre l : List String) : Option (List String) :=
  if pre.isPrefixOf l then some (l.drop pre.length) else none

/-! ## Glob matcher

Modelled from the spec: the source file `walker/src/glob.rs` (the `glob`
module declared in `src/walker/src/lib.rs` and used by `ignore_rules.rs` as
`glob_match`) is not among the repository files, so the matcher is built
from spec §4.1: `?` matches any single character except `/`; `*` matches a
run not crossing `/`; `**` as a path component matches any number of
directories including none; `[...]` is a character class with optional `!`
or `^` negation and `a-z` ranges; everything else is a literal and a
trailing `/` is significant.  A backslash escapes the following character
(spec §4.2 step 2 and §6 describe `\<space>` and `\!` escapes), and an
unterminated `[` is literal (spec §9). -/

/-- One token of a compiled glob. -/
inductive GTok : Type
  | lit (c : Char)
  | anyChar
  | star
  | globStar
  | globAll
  | cls (neg : Bool) (ranges : List (Char × Char))
deriving DecidableEq, Repr

/-- Parse the body of a character class up to the closing `]`:
the ranges and the rest of the glob.  `none` when the class is unterminated. -/
def parseRanges : List Char → Option (List (Char × Char) × List Char)
  | [] => none
  | ']' :: rest => some ([], rest)
  | a :: '-' :: b :: rest =>
    if b == ']' then some ([(a, a), ('-', '-')], rest)
    else (parseRanges rest).map (fun pr => ((a, b) :: pr.1, pr.2))
  | a :: rest => (parseRanges rest).map (fun pr => ((a, a) :: pr.1, pr.2))

theorem parseRanges_length : ∀ (l : List Char) rs rest,
    parseRanges l = some (rs, rest) → rest.length < l.length := by
  intro l
  induction l using parseRanges.induct with
  | _ =>
    intro rs rest h
    simp_all [parseRanges]
    try omega
    all_goals
      rename_i ih
      obtain ⟨a, ha, -⟩ := h
      have := ih _ _ ha
      omega

/-- Whether character `d` is accepted by a class with the given negation flag
and ranges; a class never matches the path separator. -/
def classMatch (neg : Bool) (ranges : List (Char × Char)) (d : Char) : Bool :=
  !(d == '/') && ((ranges.any (fun r => decide (r.1 ≤ d) && decide (d ≤ r.2))) != neg)

/-- Tokenise a glob string, with a structural fuel so the kernel can compute
it: escapes, `?`, `**/` (a globstar component), a trailing `**`, `*`,
character classes (an unterminated `[` is a literal) and literal characters.
Every step consumes at least one character, so `lexGlob` gives it enough
fuel. -/
def lexGlobF : Nat → List Char → List GTok
  | 0, _ => []
  | fuel + 1, l =>
    match l with
    | [] => []
    | '\\' :: c :: rest => GTok.lit c :: lexGlobF fuel rest
    | '\\' :: [] => [GTok.lit '\\']
    | '?' :: rest => GTok.anyChar :: lexGlobF fuel rest
    | '*' :: '*' :: '/' :: rest => GTok.globStar :: lexGlobF fuel rest
    | '*' :: '*' :: [] => [GTok.globAll]
    | '*' :: '*' :: c :: rest => GTok.star :: lexGlobF fuel (c :: rest)
    | '*' :: rest => GTok.star :: lexGlobF fuel rest
    | '[' :: rest =>
      match rest with
      | '!' :: body =>
        match parseRanges body with
        | some pr => GTok.cls true pr.1 :: lexGlobF fuel pr.2
        | none => GTok.lit '[' :: lexGlobF fuel rest
      | '^' :: body =>
        match parseRanges body with
        | some pr => GTok.cls true pr.1 :: lexGlobF fuel pr.2
        | none => GTok.lit '[' :: lexGlobF fuel rest
      | _ =>
        match parseRanges rest with
        | some pr => GTok.cls false pr.1 :: lexGlobF fuel pr.2
        | none => GTok.lit '[' :: lexGlobF fuel rest
    | c :: rest => GTok.lit c :: lexGlobF fuel rest

/-- Tokenise a glob string (with enough fuel for its length). -/
def lexGlob (l : List Char) : List GTok := lexGlobF (l.length + 1) l

/-- Drop the first component of the probe: everything up to and including the
first `/`.  `none` when there is no `/` left. -/
def dropComp : List Char → Option (List Char)
  | [] => none
  | c :: s => if c == '/' then some s else dropComp s

theorem dropComp_length : ∀ (s t : List Char), dropComp s = some t → t.length < s.length := by
  intro s
  induction s with
  | nil => intro t h; simp [dropComp] at h
  | cons c s ih =>
    intro t h
    by_cases hc : c == '/'
    · simp [dropComp, hc] at h
      simp [← h]
    · simp [dropComp, hc] at h
      have := ih _ h
      simp
      omega

/-- Match a tokenised glob against a probe, with a structural fuel so the
kernel can compute it: every step shrinks `p.length + s.length`, so
`tokMatch` gives it enough fuel. -/
def tokMatchF : Nat → List GTok → List Char → Bool
  | 0, _, _ => false
  | fuel + 1, p, s =>
    match p, s with
    | [], [] => true
    | [], _ :: _ => false
    | GTok.lit _ :: _, [] => false
    | GTok.lit c :: p2, d :: s2 => c == d && tokMatchF fuel p2 s2
    | GTok.anyChar :: _, [] => false
    | GTok.anyChar :: p2, d :: s2 => !(d == '/') && tokMatchF fuel p2 s2
    | GTok.cls _ _ :: _, [] => false
    | GTok.cls neg rs :: p2, d :: s2 => classMatch neg rs d && tokMatchF fuel p2 s2
    | GTok.globAll :: _, _ => true
    | GTok.star :: p2, s =>
      tokMatchF fuel p2 s ||
        match s with
        | d :: s2 => !(d == '/') && tokMatchF fuel (GTok.star :: p2) s2
        | [] => false
    | GTok.globStar :: p2, s =>
      tokMatchF fuel p2 s ||
        match dropComp s with
        | some s2 => tokMatchF fuel (GTok.globStar :: p2) s2
        | none => false

/-- The fuel is irrelevant while it exceeds `p.length + s.length`. -/
theorem tokMatchF_congr : ∀ (f1 f2 : Nat) (p : List GTok) (s : List Char),
    p.length + s.length < f1 → p.length + s.length < f2 →
    tokMatchF f1 p s = tokMatchF f2 p s := by
  intro f1
  induction f1 with
  | zero => intro f2 p s h1 _; exact absurd h1 (Nat.not_lt_zero _)
  | succ f1 ih =>
    intro f2 p s h1 h2
    rcases f2 with _ | g
    · exact absurd h2 (Nat.not_lt_zero _)
    · rcases p with _ | ⟨t, p2⟩
      · rcases s with _ | ⟨d, s2⟩ <;> rfl
      · rcases t with c | _ | _ | _ | _ | ⟨neg, rs⟩
        · rcases s with _ | ⟨d, s2⟩
          · rfl
          · simp only [tokMatchF]
            simp only [List.length_cons] at h1 h2
            rw [ih g p2 s2 (by omega) (by omega)]
        · rcases s with _ | ⟨d, s2⟩
          · rfl
          · simp only [tokMatchF]
            simp only [List.length_cons] at h1 h2
            rw [ih g p2 s2 (by omega) (by omega)]
        · simp only [tokMatchF]
          simp only [List.length_cons] at h1 h2
          rw [ih g p2 s (by omega) (by omega)]
          rcases s with _ | ⟨d, s2⟩
          · rfl
          · simp only [List.length_cons] at h1 h2
            congr 1
            show (!(d == '/') && tokMatchF f1 (GTok.star :: p2) s2) =
              (!(d == '/') && tokMatchF g (GTok.star :: p2) s2)
            rw [ih g (GTok.star :: p2) s2 (by simp; omega) (by simp; omega)]
        · simp only [tokMatchF]
          simp only [List.length_cons] at h1 h2
          rw [ih g p2 s (by omega) (by omega)]
          rcases hdc : dropComp s with _ | s2
          · rfl
          · have := dropComp_length s s2 hdc
            congr 1
            show tokMatchF f1 (GTok.globStar :: p2) s2 =
              tokMatchF g (GTok.globStar :: p2) s2
            rw [ih g (GTok.globStar :: p2) s2
              (by simp only [List.length_cons]; omega)
              (by simp only [List.length_cons]; omega)]
        · rfl
        · rcases s with _ | ⟨d, s2⟩
          · rfl
          · simp only [tokMatchF]
            simp only [List.length_cons] at h1 h2
            rw [ih g p2 s2 (by omega) (by omega)]

/-- Match a tokenised glob against a probe string (its characters). -/
def tokMatch (p : List GTok) (s : List Char) : Bool :=
  tokMatchF (p.length + s.length + 1) p s

theorem tokMatchF_eq_tokMatch (f : Nat) (p : List GTok) (s : List Char)
    (h : p.length + s.length < f) : tokMatchF f p s = tokMatch p s :=
  tokMatchF_congr f (p.length + s.length + 1) p s h (by omega)

theorem tokMatch_lit_cons (c : Char) (p : List GTok) (d : Char) (s : List Char) :
    tokMatch (GTok.lit c :: p) (d :: s) = (c == d && tokMatch p s) := by
  have h1 : tokMatch (GTok.lit c :: p) (d :: s) =
      (c == d && tokMatchF ((GTok.lit c :: p).length + (d :: s).length) p s) := rfl
  rw [h1, tokMatchF_eq_tokMatch _ _ _
    (by simp only [List.length_cons]; omega)]

theorem tokMatch_cls_cons (neg : Bool) (rs : List (Char × Char)) (p : List GTok)
    (d : Char) (s : List Char) :
    tokMatch (GTok.cls neg rs :: p) (d :: s) = (classMatch neg rs d && tokMatch p s) := by
  have h1 : tokMatch (GTok.cls neg rs :: p) (d :: s) =
      (classMatch neg rs d &&
        tokMatchF ((GTok.cls neg rs :: p).length + (d :: s).length) p s) := rfl
  rw [h1, tokMatchF_eq_tokMatch _ _ _
    (by simp only [List.length_cons]; omega)]

theorem tokMatch_star (p : List GTok) (s : List Char) :
    tokMatch (GTok.star :: p) s =
      (tokMatch p s ||
        match s with
        | d :: s2 => !(d == '/') && tokMatch (GTok.star :: p) s2
        | [] => false) := by
  rcases s with _ | ⟨d, s2⟩
  · have h1 : tokMatch (GTok.star :: p) ([] : List Char) =
        (tokMatchF ((GTok.star :: p).length + ([] : List Char).length) p [] || false) := rfl
    rw [h1, tokMatchF_eq_tokMatch _ _ _
      (by simp only [List.length_cons, List.length_nil]; omega)]
  · have h1 : tokMatch (GTok.star :: p) (d :: s2) =
        (tokMatchF ((GTok.star :: p).length + (d :: s2).length) p (d :: s2) ||
          (!(d == '/') &&
            tokMatchF ((GTok.star :: p).length + (d :: s2).length) (GTok.star :: p) s2)) := rfl
    rw [h1, tokMatchF_eq_tokMatch _ _ _
      (by simp only [List.length_cons]; omega),
      tokMatchF_eq_tokMatch _ _ _
      (by simp only [List.length_cons]; omega)]

theorem tokMatch_globStar (p : List GTok) (s : List Char) :
    tokMatch (GTok.globStar :: p) s =
      (tokMatch p s ||
        match dropComp s with
        | some s2 => tokMatch (GTok.globStar :: p) s2
        | none => false) := by
  have h1 : tokMatch (GTok.globStar :: p) s =
      (tokMatchF ((GTok.globStar :: p).length + s.length) p s ||
        match dropComp s with
        | some s2 => tokMatchF ((GTok.globStar :: p).length + s.length) (GTok.globStar :: p) s2
        | none => false) := rfl
  rw [h1, tokMatchF_eq_tokMatch _ _ _
    (by simp only [List.length_cons]; omega)]
  rcases hdc : dropComp s with _ | s2
  · rfl
  · have := dropComp_length s s2 hdc
    congr 1
    show tokMatchF ((GTok.globStar :: p).length + s.length) (GTok.globStar :: p) s2 =
      tokMatch (GTok.globStar :: p) s2
    exact tokMatchF_eq_tokMatch _ _ _
      (by simp only [List.length_cons]; omega)

/-- Model of the repository's `glob_match` (see the section comment: modelled
from spec §4.1). -/
def glob_match (glob probe : String) : Bool := tokMatch (lexGlob glob.data) probe.data

/-! ## Data model (`src/walker/src/pattern.rs`) -/

/-- `pattern.rs` 4-12: the result of matching a path against ignore patterns. -/
inductive MatchResult : Type
  | noMatch
  | ignore
  | whitelist
deriving DecidableEq, Repr

/-- `pattern.rs` 15-24: how a pattern's path is interpreted. -/
inductive PatternRelativity : Type
  | anywhere
  | relativeTo (directory : String)
deriving DecidableEq, Repr

/-- `pattern.rs` 27-33: the type of path a pattern can match. -/
inductive PathKind : Type
  | any
  | directory
deriving DecidableEq, Repr

/-- `pattern.rs` 36-42: the effect of a pattern when it matches. -/
inductive PatternEffect : Type
  | ignore
  | whitelist
deriving DecidableEq, Repr

/-- `pattern.rs` 45-61: the origin of a pattern.  File paths and the
command-line current directory are component lists relative to the ignore
root. -/
inductive Source : Type
  | global
  | file (path : List String) (line : Nat)
  | commandLine (currentDir : List String)
deriving DecidableEq, Repr

/-- `pattern.rs` 63-72 `Source::dir_path`: the directory of the source.
`Path::parent` of an empty path is `None`, of a single component is the empty
path, otherwise it drops the last component. -/
def Source.dirPath : Source → Option (List String)
  | Source.file p _ => if p.isEmpty then none else some p.dropLast
  | Source.global => some []
  | Source.commandLine d => some d

/-- `pattern.rs` 74-89: one parsed ignore pattern. -/
structure Pattern : Type where
  glob : String
  original : String
  source : Source
  effect : PatternEffect
  relativity : PatternRelativity
  path_kind : PathKind
deriving DecidableEq, Repr

/-! `Pattern::new` (`pattern.rs` 91-181), split into its straight-line stages
so the theorems can speak about them.  Each stage is a direct transcription
of the statements of the Rust function, in their order. -/

/-- `pattern.rs` 95-102: the raw `current_dir` of the source — empty for
`Global`, the parent directory of the source file (or empty) for `File`, the
recorded cwd for `CommandLine`. -/
def currentDirRaw : Source → String
  | Source.global => ""
  | Source.file p _ => joinSlash p.dropLast
  | Source.commandLine d => joinSlash d

/-- `pattern.rs` 104-106: drop one trailing `/` from `current_dir`. -/
def currentDirOf (s : Source) : String :=
  let c := currentDirRaw s
  if strEndsWith c ("/") then strDropRight c 1 else c

/-- `pattern.rs` 108-115: strip a leading `\!` escape or a leading `!`. -/
def bangStripped (original : String) : String :=
  if strStartsWith original ("\\!") then strDrop original 1
  else if strStartsWith original ("!") then strDrop original 1
  else original

/-- `pattern.rs` 117-119: drop trailing whitespace unless the line ends in a
backslash followed by a space. -/
def wsTrimmed (l : String) : String :=
  if !(strEndsWith l ("\\ ")) then strTrimRight l else l

/-- The line after the `!` handling and the trailing-whitespace handling. -/
def lineAfterTrim (o : String) : String := wsTrimmed (bangStripped o)

/-- `pattern.rs` 121: whether the (trimmed) line ends in `/`. -/
def endSlashOf (o : String) : Bool := strEndsWith (lineAfterTrim o) ("/")

/-- `pattern.rs` 121-124: the line with a trailing `/` stripped. -/
def lineAfterEnd (o : String) : String :=
  if endSlashOf o then strDropRight (lineAfterTrim o) 1 else lineAfterTrim o

/-- `pattern.rs` 126: whether the line begins with `/`. -/
def beginSlashOf (o : String) : Bool := strStartsWith (lineAfterEnd o) ("/")

/-- `pattern.rs` 126-129: the residue line, with a leading `/` stripped. -/
def residue (o : String) : String :=
  if beginSlashOf o then strDrop (lineAfterEnd o) 1 else lineAfterEnd o

/-- `pattern.rs` 131, 149: an anchored line begins with `/` or contains `/`. -/
def anchoredOf (o : String) : Bool := beginSlashOf o || strContains (residue o) ('/')

/-- `pattern.rs` 133-137: a leading `!` means `Whitelist`. -/
def effectOf (o : String) : PatternEffect :=
  if strStartsWith o ("!") then PatternEffect.whitelist else PatternEffect.ignore

/-- `pattern.rs` 139-147: `Directory` on a trailing `/`, forced by a trailing
`**` on the residue. -/
def pathKindOf (o : String) : PathKind :=
  if strEndsWith (residue o) ("**") then PathKind.directory
  else if endSlashOf o then PathKind.directory
  else PathKind.any

/-- `pattern.rs` 91-181 `Pattern::new`: parse one raw line from a source. -/
def Pattern.new (source : Source) (original : String) : Pattern :=
  let currentDir := currentDirOf source
  let line := residue original
  let base :=
    if anchoredOf original then
      if currentDir = "" then line else currentDir ++ "/" ++ line
    else
      if currentDir = "" then "**/" ++ line else currentDir ++ "/**/" ++ line
  { glob := if pathKindOf original = PathKind.directory then base ++ "/" else base
    original := original
    source := source
    effect := effectOf original
    relativity :=
      if anchoredOf original then PatternRelativity.relativeTo currentDir
      else PatternRelativity.anywhere
    path_kind := pathKindOf original }

/-! ## IgnoreRules (`src/walker/src/ignore_rules.rs`) -/

/-- `ignore_rules.rs` 8-17: a rule set scoped to a root directory.  The
`Arc<RwLock<..>>` wrapper is dropped (see the header comment). -/
structure IgnoreRules : Type where
  root : List String
  ignore_filename : Option String
  patterns : List Pattern
deriving DecidableEq, Repr

/-- `ignore_rules.rs` 22-24 `pattern_has_wildcard`. -/
def pattern_has_wildcard (p : String) : Bool :=
  strContains p ('*') || strContains p ('?') || strContains p ('[')

/-- `ignore_rules.rs` 66-71: the string form of the relative path — `/` for
the root itself when it is a directory, otherwise the relative path with a
trailing `/` ensured for a directory. -/
def mkPathStr (relStr : String) (isDir : Bool) : String :=
  if relStr = "" && isDir then "/"
  else if isDir && !(strEndsWith relStr ("/")) then relStr ++ "/"
  else relStr

/-- `ignore_rules.rs` 83-93: the self-file skip — a pattern whose source file
lives in the queried directory itself is skipped. -/
def selfSkip (p : Pattern) (relPath : List String) : Bool :=
  match p.source with
  | Source.file fp _ => if fp.isEmpty then false else fp.dropLast == relPath
  | _ => false

/-- `ignore_rules.rs` 95-115: the per-pattern match test.  For a directory
query, both the slashed and the slash-stripped form of the path are tried,
except that a glob ending in `/*` whose prefix equals the relative path never
matches; a non-directory query only tries the plain form. -/
def patternTest (glob relStr pathStr : String) (isDir : Bool) : Bool :=
  if isDir then
    if strEndsWith glob ("/*") then
      if relStr = strDropRight glob 2 then false
      else glob_match glob pathStr || glob_match glob (trimTrailingSlashes pathStr)
    else glob_match glob pathStr || glob_match glob (trimTrailingSlashes pathStr)
  else glob_match glob pathStr

/-- `ignore_rules.rs` 75-131: the reverse scan.  The list argument is the
enumerated pattern list in reverse insertion order; the two accumulators are
the most recent matching `Ignore` and `Whitelist` patterns (with their
insertion positions), filled only while empty, with an early stop once both
are filled.  A matching `Directory`-only pattern is skipped for a
non-directory query. -/
def scanSlots : List (Nat × Pattern) → List String → String → String → Bool →
    Option (Nat × Pattern) → Option (Nat × Pattern) →
    Option (Nat × Pattern) × Option (Nat × Pattern)
  | [], _, _, _, _, im, wm => (im, wm)
  | (i, p) :: rest, relPath, relStr, pathStr, isDir, im, wm =>
    if im.isSome && wm.isSome then (im, wm)
    else if selfSkip p relPath then scanSlots rest relPath relStr pathStr isDir im wm
    else if patternTest p.glob relStr pathStr isDir then
      if p.path_kind == PathKind.directory && !isDir then
        scanSlots rest relPath relStr pathStr isDir im wm
      else
        match p.effect with
        | PatternEffect.ignore =>
          scanSlots rest relPath relStr pathStr isDir
            (if im.isNone then some (i, p) else im) wm
        | PatternEffect.whitelist =>
          scanSlots rest relPath relStr pathStr isDir im
            (if wm.isNone then some (i, p) else wm)
    else scanSlots rest relPath relStr pathStr isDir im wm

/-- `ignore_rules.rs` 150-155 `patterns.iter().position(..)`: the position of
the first pattern whose `original` text equals `orig`. -/
def findPos (orig : String) : List Pattern → Option Nat
  | [] => none
  | p :: rest => if p.original = orig then some 0 else (findPos orig rest).map (· + 1)

/-- Rust's `Ord` on `Option<usize>` restricted to `>`: `None` is smaller than
every `Some`. -/
def optGt : Option Nat → Option Nat → Bool
  | some a, some b => decide (b < a)
  | some _, none => true
  | none, _ => false

/-- `ignore_rules.rs` 137-149: the cross-source override exception — the
whitelist's source directory is strictly inside the ignore's source directory
(`Path::starts_with`, component-wise) and the whitelist's original text has
neither `/` nor a wildcard character. -/
def subtreeException (ip wp : Pattern) : Bool :=
  match ip.source.dirPath, wp.source.dirPath with
  | some isd, some wsd =>
    isd.isPrefixOf wsd && !(wsd == isd) &&
      (!(strContains wp.original ('/')) && !(pattern_has_wildcard wp.original))
  | _, _ => false

/-- `ignore_rules.rs` 133-162: the arbitration of the two slots. -/
def arbitrate (patterns : List Pattern)
    (im wm : Option (Nat × Pattern)) : MatchResult :=
  match im, wm with
  | none, none => MatchResult.noMatch
  | some _, none => MatchResult.ignore
  | none, some _ => MatchResult.whitelist
  | some (_, ip), some (_, wp) =>
    if subtreeException ip wp then MatchResult.ignore
    else if optGt (findPos wp.original patterns) (findPos ip.original patterns) then
      MatchResult.whitelist
    else MatchResult.ignore

/-- `ignore_rules.rs` 64-163 `IgnoreRules::check` on the relative component
path: scan in reverse insertion order, then arbitrate. -/
def checkRel (patterns : List Pattern) (relPath : List String) (isDir : Bool) :
    MatchResult :=
  let p := scanSlots (withIdx 0 patterns).reverse relPath (joinSlash relPath)
    (mkPathStr (joinSlash relPath) isDir) isDir none none
  arbitrate patterns p.1 p.2

/-- `ignore_rules.rs` 64-163 `IgnoreRules::check`.  `path.is_dir()` is the
explicit `isDir` argument; `none` models the `expect` panic when the path is
not under the root. -/
def IgnoreRules.check (r : IgnoreRules) (path : List String) (isDir : Bool) :
    Option MatchResult :=
  match stripPrefixL r.root path with
  | none => none
  | some relPath => some (checkRel r.patterns relPath isDir)

/-- `ignore_rules.rs` 166-181 `merge_with`/`add_patterns`: drain the other
rule set's patterns and append them (both rule sets share the root). -/
def IgnoreRules.addPatterns (r : IgnoreRules) (ps : List Pattern) : IgnoreRules :=
  { r with patterns := r.patterns ++ ps }

/-- `ignore_rules.rs` 37-48 `IgnoreRules::from_global_patterns`: every line of
the given string becomes a pattern — no filtering at all. -/
def IgnoreRules.from_global_patterns (ignoreRoot : List String)
    (ignoreFilename : Option String) (given : String) : IgnoreRules :=
  { root := ignoreRoot
    ignore_filename := ignoreFilename
    patterns := (rustLines given).map (Pattern.new Source.global) }

/-- `ignore_rules.rs` 190-193: the lines that survive the blank/comment
filter, each with its zero-based position among all lines. -/
def effectiveLines (content : String) : List (Nat × String) :=
  (withIdx 0 (rustLines content)).filter
    (fun il => !(strTrim il.2 = "" || strStartsWith il.2 ("#")))

/-- Collect a list of fallible results the way Rust `collect` does: the first
failure fails the whole list (a panic inside `map` is modelled the same way:
it fires only when some element is actually produced). -/
def mapMO {α β : Type} (f : α → Option β) : List α → Option (List β)
  | [] => some []
  | a :: l =>
    match f a with
    | none => none
    | some b => (mapMO f l).map (fun bs => b :: bs)

/-- `ignore_rules.rs` 185-218 `content_to_patterns`: filter blank and `#`
lines, trim trailing whitespace unless the line ends in `\<space>`, and build
a pattern per surviving line; `none` models the `expect` panic when a
surviving line's source must be relativised and the source file is not under
the ignore root. -/
def content_to_patterns (ignoreRoot : List String) (source : Option (List String))
    (content : String) : Option (List Pattern) :=
  mapMO
    (fun il =>
      match source with
      | some p => (stripPrefixL ignoreRoot p).map
          (fun rp => Pattern.new (Source.file rp (il.1 + 1)) il.2)
      | none => some (Pattern.new Source.global il.2))
    ((effectiveLines content).map
      (fun il => (il.1, if !(strEndsWith il.2 ("\\ ")) then strTrimRight il.2 else il.2)))

/-! ## Helper lemmas -/

theorem mapMO_isSome_of {α β : Type} (f : α → Option β) :
    ∀ (l : List α), (∀ a ∈ l, (f a).isSome) → (mapMO f l).isSome := by
  intro l
  induction l with
  | nil => intro _; rfl
  | cons a l ih =>
    intro h
    have ha := h a (List.mem_cons_self a l)
    obtain ⟨b, hb⟩ := Option.isSome_iff_exists.mp ha
    have hl := ih (fun x hx => h x (List.mem_cons_of_mem a hx))
    obtain ⟨bs, hbs⟩ := Option.isSome_iff_exists.mp hl
    simp [mapMO, hb, hbs]

theorem mapMO_none_of {α β : Type} (f : α → Option β) :
    ∀ (l : List α), (∀ a, f a = none) → l ≠ [] → mapMO f l = none := by
  intro l
  induction l with
  | nil => intro _ h; exact absurd rfl h
  | cons a l _ =>
    intro h _
    simp [mapMO, h a]

theorem strAppendEmpty (s : String) : s ++ ("") = s := by
  cases s with
  | mk l => show String.mk (l ++ []) = String.mk l; rw [List.append_nil]

theorem withIdx_mem {α : Type} :
    ∀ (n : Nat) (l : List α) (i : Nat) (a : α), (i, a) ∈ withIdx n l → a ∈ l := by
  intro n l
  induction l generalizing n with
  | nil => intro i a h; simp [withIdx] at h
  | cons b l ih =>
    intro i a h
    rw [withIdx] at h
    rcases List.mem_cons.mp h with h | h
    · cases h
      exact List.mem_cons_self b l
    · exact List.mem_cons_of_mem b (ih (n + 1) i a h)

theorem withIdx_append_singleton {α : Type} :
    ∀ (n : Nat) (l : List α) (a : α),
      withIdx n (l ++ [a]) = withIdx n l ++ [(n + l.length, a)] := by
  intro n l
  induction l generalizing n with
  | nil => intro a; simp [withIdx]
  | cons b l ih =>
    intro a
    rw [List.cons_append, withIdx, withIdx, ih (n + 1) a]
    simp
    omega

/-- The invariant of the reverse scan for the `Ignore` slot: the scan either
leaves the slot untouched or fills it with an enumerated pattern of the
scanned list that passed the self-file skip, matched the query, and passed
the directory-kind filter, and whose effect is `Ignore`. -/
theorem scanSlots_fst_spec :
    ∀ (l : List (Nat × Pattern)) (relPath : List String) (relStr pathStr : String)
      (isDir : Bool) (im wm : Option (Nat × Pattern)),
      (scanSlots l relPath relStr pathStr isDir im wm).1 = im ∨
      ∃ i p, (scanSlots l relPath relStr pathStr isDir im wm).1 = some (i, p) ∧
        (i, p) ∈ l ∧ selfSkip p relPath = false ∧
        patternTest p.glob relStr pathStr isDir = true ∧
        (p.path_kind = PathKind.directory → isDir = true) ∧
        p.effect = PatternEffect.ignore := by
  intro l
  induction l with
  | nil =>
    intro relPath relStr pathStr isDir im wm
    left
    rfl
  | cons hd tl ih =>
    intro relPath relStr pathStr isDir im wm
    obtain ⟨i, p⟩ := hd
    rw [scanSlots]
    by_cases hbreak : (im.isSome && wm.isSome) = true
    · rw [if_pos hbreak]
      left
      rfl
    · rw [if_neg hbreak]
      by_cases hskip : selfSkip p relPath = true
      · rw [if_pos hskip]
        rcases ih relPath relStr pathStr isDir im wm with h | ⟨j, q, h1, h2, h3⟩
        · left; exact h
        · right; exact ⟨j, q, h1, List.mem_cons_of_mem _ h2, h3⟩
      · rw [if_neg hskip]
        by_cases htest : patternTest p.glob relStr pathStr isDir = true
        · rw [if_pos htest]
          by_cases hkind : (p.path_kind == PathKind.directory && !isDir) = true
          · rw [if_pos hkind]
            rcases ih relPath relStr pathStr isDir im wm with h | ⟨j, q, h1, h2, h3⟩
            · left; exact h
            · right; exact ⟨j, q, h1, List.mem_cons_of_mem _ h2, h3⟩
          · rw [if_neg hkind]
            have hkind2 : p.path_kind = PathKind.directory → isDir = true := by
              intro hd
              cases hdir : isDir
              · exfalso
                apply hkind
                simp [hd, hdir]
              · rfl
            cases heff : p.effect
            · cases him : im
              · simp only [Option.isNone_none, if_pos rfl]
                rcases ih relPath relStr pathStr isDir (some (i, p)) wm with h | ⟨j, q, h1, h2, h3⟩
                · right
                  refine ⟨i, p, h, List.mem_cons_self _ _, ?_, htest, hkind2, heff⟩
                  exact Bool.eq_false_iff.mpr hskip
                · right; exact ⟨j, q, h1, List.mem_cons_of_mem _ h2, h3⟩
              · simp only [Option.isNone_some, Bool.false_eq_true, if_neg]
                rcases ih relPath relStr pathStr isDir (some _) wm with h | ⟨j, q, h1, h2, h3⟩
                · left; exact h
                · right; exact ⟨j, q, h1, List.mem_cons_of_mem _ h2, h3⟩
            · rcases ih relPath relStr pathStr isDir im
                (if wm.isNone then some (i, p) else wm) with h | ⟨j, q, h1, h2, h3⟩
              · left; exact h
              · right; exact ⟨j, q, h1, List.mem_cons_of_mem _ h2, h3⟩
        · rw [if_neg htest]
          rcases ih relPath relStr pathStr isDir im wm with h | ⟨j, q, h1, h2, h3⟩
          · left; exact h
          · right; exact ⟨j, q, h1, List.mem_cons_of_mem _ h2, h3⟩

/-- The invariant of the reverse scan for the `Whitelist` slot. -/
theorem scanSlots_snd_spec :
    ∀ (l : List (Nat × Pattern)) (relPath : List String) (relStr pathStr : String)
      (isDir : Bool) (im wm : Option (Nat × Pattern)),
      (scanSlots l relPath relStr pathStr isDir im wm).2 = wm ∨
      ∃ i p, (scanSlots l relPath relStr pathStr isDir im wm).2 = some (i, p) ∧
        (i, p) ∈ l ∧ selfSkip p relPath = false ∧
        patternTest p.glob relStr pathStr isDir = true ∧
        (p.path_kind = PathKind.directory → isDir = true) ∧
        p.effect = PatternEffect.whitelist := by
  intro l
  induction l with
  | nil =>
    intro relPath relStr pathStr isDir im wm
    left
    rfl
  | cons hd tl ih =>
    intro relPath relStr pathStr isDir im wm
    obtain ⟨i, p⟩ := hd
    rw [scanSlots]
    by_cases hbreak : (im.isSome && wm.isSome) = true
    · rw [if_pos hbreak]
      left
      rfl
    · rw [if_neg hbreak]
      by_cases hskip : selfSkip p relPath = true
      · rw [if_pos hskip]
        rcases ih relPath relStr pathStr isDir im wm with h | ⟨j, q, h1, h2, h3⟩
        · left; exact h
        · right; exact ⟨j, q, h1, List.mem_cons_of_mem _ h2, h3⟩
      · rw [if_neg hskip]
        by_cases htest : patternTest p.glob relStr pathStr isDir = true
        · rw [if_pos htest]
          by_cases hkind : (p.path_kind == PathKind.directory && !isDir) = true
          · rw [if_pos hkind]
            rcases ih relPath relStr pathStr isDir im wm with h | ⟨j, q, h1, h2, h3⟩
            · left; exact h
            · right; exact ⟨j, q, h1, List.mem_cons_of_mem _ h2, h3⟩
          · rw [if_neg hkind]
            have hkind2 : p.path_kind = PathKind.directory → isDir = true := by
              intro hd
              cases hdir : isDir
              · exfalso
                apply hkind
                simp [hd, hdir]
              · rfl
            cases heff : p.effect
            · rcases ih relPath relStr pathStr isDir
                (if im.isNone then some (i, p) else im) wm with h | ⟨j, q, h1, h2, h3⟩
              · left; exact h
              · right; exact ⟨j, q, h1, List.mem_cons_of_mem _ h2, h3⟩
            · cases hwm : wm
              · simp only [Option.isNone_none, if_pos rfl]
                rcases ih relPath relStr pathStr isDir im (some (i, p)) with h | ⟨j, q, h1, h2, h3⟩
                · right
                  refine ⟨i, p, h, List.mem_cons_self _ _, ?_, htest, hkind2, heff⟩
                  exact Bool.eq_false_iff.mpr hskip
                · right; exact ⟨j, q, h1, List.mem_cons_of_mem _ h2, h3⟩
              · simp only [Option.isNone_some, Bool.false_eq_true, if_neg]
                rcases ih relPath relStr pathStr isDir im (some _) with h | ⟨j, q, h1, h2, h3⟩
                · left; exact h
                · right; exact ⟨j, q, h1, List.mem_cons_of_mem _ h2, h3⟩
        · rw [if_neg htest]
          rcases ih relPath relStr pathStr isDir im wm with h | ⟨j, q, h1, h2, h3⟩
          · left; exact h
          · right; exact ⟨j, q, h1, List.mem_cons_of_mem _ h2, h3⟩

theorem strDataAppend (a b : String) : (a ++ b).data = a.data ++ b.data := by
  cases a with
  | mk la => cases b with
    | mk lb => rfl

theorem strMkData (s : String) : String.mk s.data = s := by
  cases s
  rfl

theorem trimTrailingSlashes_append_slash (s : String)
    (h : strEndsWith s ("/") = false) : trimTrailingSlashes (s ++ ("/")) = s := by
  unfold trimTrailingSlashes
  rw [strDataAppend]
  rcases hrev : s.data.reverse with _ | ⟨b, rest⟩
  · have hnil : s.data = [] := List.reverse_eq_nil_iff.mp hrev
    rw [hnil]
    show String.mk (List.reverse (List.dropWhile _ (List.reverse (([] : List Char) ++ ([] ++ ['/']))))) = s
    simp only [List.nil_append, List.reverse_cons, List.reverse_nil]
    show String.mk (List.reverse (List.dropWhile (fun c => c == '/') ['/'])) = s
    simp only [List.dropWhile]
    norm_num
    rw [← hnil, strMkData]
  · unfold strEndsWith at h
    rw [show ("/" : String).data = ['/'] from rfl] at h
    unfold List.isSuffixOf at h
    rw [hrev] at h
    simp only [List.reverse_cons, List.reverse_nil, List.nil_append, List.isPrefixOf] at h
    have hb : (b == '/') = false := by
      rcases hb2 : ('/' == b) with _ | _
      · exact beq_false_of_ne (Ne.symm (ne_of_beq_false hb2))
      · rw [hb2] at h
        simp at h
    rw [List.reverse_append, show (("/" : String).data.reverse) = ['/'] from rfl]
    show String.mk (List.reverse (List.dropWhile (fun c => c == '/') ('/' :: s.data.reverse))) = s
    rw [List.dropWhile_cons_of_pos (by norm_num), hrev,
      List.dropWhile_cons_of_neg (by rw [hb]; exact Bool.false_ne_true)]
    rw [← hrev, List.reverse_reverse, strMkData]

/-! ## The claims -/

theorem litsMatch : ∀ (cs s : List Char),
    tokMatch (cs.map GTok.lit) s = true ↔ s = cs := by
  intro cs
  induction cs with
  | nil =>
    intro s
    rcases s with _ | ⟨d, s⟩
    · simp [tokMatch, tokMatchF]
    · simp only [List.map_nil]
      constructor
      · intro h
        cases h
      · intro h
        cases h
  | cons c cs ih =>
    intro s
    rcases s with _ | ⟨d, s⟩
    · simp only [List.map_cons]
      constructor
      · intro h
        cases h
      · intro h
        cases h
    · rw [List.map_cons, tokMatch_lit_cons]
      rw [Bool.and_eq_true, beq_iff_eq, ih s]
      constructor
      · rintro ⟨rfl, rfl⟩
        rfl
      · intro h
        cases h
        exact ⟨rfl, rfl⟩

theorem dropComp_split : ∀ (s t : List Char), dropComp s = some t →
    ∃ pre, s = pre ++ '/' :: t ∧ ('/') ∉ pre := by
  intro s
  induction s with
  | nil => intro t h; cases h
  | cons c s ih =>
    intro t h
    by_cases hc : c == '/'
    · rw [show c = '/' from beq_iff_eq.mp hc] at h ⊢
      simp [dropComp] at h
      subst h
      exact ⟨[], rfl, by simp⟩
    · rw [dropComp, if_neg (by simpa using hc)] at h
      obtain ⟨pre, hpre, hmem⟩ := ih t h
      refine ⟨c :: pre, by rw [hpre]; rfl, ?_⟩
      intro hm
      rcases List.mem_cons.mp hm with hm | hm
      · exact absurd (beq_iff_eq.mpr hm.symm) (by simpa using hc)
      · exact hmem hm

theorem dropComp_noslash_append : ∀ (pre t : List Char), ('/') ∉ pre →
    dropComp (pre ++ '/' :: t) = some t := by
  intro pre
  induction pre with
  | nil => intro t _; simp [dropComp]
  | cons c pre ih =>
    intro t h
    rw [List.cons_append, dropComp,
      if_neg (by simp only [beq_iff_eq]; intro hc; exact h (by rw [hc]; exact List.mem_cons_self _ _))]
    exact ih t (fun hm => h (List.mem_cons_of_mem c hm))

theorem firstSlashSplit : ∀ (l : List Char), ('/') ∈ l →
    ∃ p1 p2, l = p1 ++ '/' :: p2 ∧ ('/') ∉ p1 := by
  intro l
  induction l with
  | nil => intro h; cases h
  | cons c l ih =>
    intro h
    by_cases hc : c = '/'
    · subst hc
      exact ⟨[], l, rfl, by simp⟩
    · rcases List.mem_cons.mp h with h | h
      · exact absurd h.symm hc
      · obtain ⟨p1, p2, hpre, hmem⟩ := ih h
        refine ⟨c :: p1, p2, by rw [hpre]; rfl, ?_⟩
        intro hm
        rcases List.mem_cons.mp hm with hm | hm
        · exact hc hm.symm
        · exact hmem hm

/-- A globstar component can always consume whole leading components of the
probe down to any `/`-boundary suffix. -/
theorem gs_reach : ∀ (n : Nat) (pre t : List Char) (p : List GTok),
    pre.length ≤ n → tokMatch p t = true →
    tokMatch (GTok.globStar :: p) (pre ++ '/' :: t) = true := by
  intro n
  induction n with
  | zero =>
    intro pre t p hlen hm
    have : pre = [] := List.length_eq_zero.mp (Nat.le_zero.mp hlen)
    subst this
    rw [List.nil_append, tokMatch_globStar,
      show dropComp ('/' :: t) = some t by simp [dropComp]]
    show (tokMatch p ('/' :: t) || tokMatch (GTok.globStar :: p) t) = true
    rw [tokMatch_globStar, hm]
    simp
  | succ n ih =>
    intro pre t p hlen hm
    by_cases hmem : ('/') ∈ pre
    · obtain ⟨p1, p2, hpre, hp1⟩ := firstSlashSplit pre hmem
      subst hpre
      rw [List.append_assoc, List.cons_append]
      rw [tokMatch_globStar,
        show dropComp (p1 ++ '/' :: (p2 ++ '/' :: t)) = some (p2 ++ '/' :: t) from
          dropComp_noslash_append p1 (p2 ++ '/' :: t) hp1]
      have hlen2 : p2.length ≤ n := by
        rw [List.length_append, List.length_cons] at hlen
        omega
      show (tokMatch p (p1 ++ '/' :: (p2 ++ '/' :: t)) ||
        tokMatch (GTok.globStar :: p) (p2 ++ '/' :: t)) = true
      rw [ih p2 t p hlen2 hm]
      simp
    · rw [tokMatch_globStar,
        show dropComp (pre ++ '/' :: t) = some t from dropComp_noslash_append pre t hmem]
      show (tokMatch p (pre ++ '/' :: t) || tokMatch (GTok.globStar :: p) t) = true
      rw [tokMatch_globStar, hm]
      simp

/-- What a globstar-headed token list accepts: some `/`-boundary suffix of
the probe (or the probe itself) is accepted by the rest. -/
theorem gs_fwd : ∀ (n : Nat) (s : List Char) (p : List GTok), s.length ≤ n →
    tokMatch (GTok.globStar :: p) s = true →
    ∃ t, (s = t ∨ ∃ pre, s = pre ++ '/' :: t) ∧ tokMatch p t = true := by
  intro n
  induction n with
  | zero =>
    intro s p hlen hm
    have : s = [] := List.length_eq_zero.mp (Nat.le_zero.mp hlen)
    subst this
    rw [tokMatch_globStar] at hm
    rcases Bool.or_eq_true_iff.mp hm with hm | hm
    · exact ⟨[], Or.inl rfl, hm⟩
    · cases hm
  | succ n ih =>
    intro s p hlen hm
    rw [tokMatch_globStar] at hm
    rcases Bool.or_eq_true_iff.mp hm with hm | hm
    · exact ⟨s, Or.inl rfl, hm⟩
    · rcases hdc : dropComp s with _ | s2
      · rw [hdc] at hm
        cases hm
      · rw [hdc] at hm
        have hlen2 : s2.length ≤ n := by
          have := dropComp_length s s2 hdc
          omega
        obtain ⟨t, hst, hmt⟩ := ih s2 p hlen2 hm
        obtain ⟨pre0, hs, -⟩ := dropComp_split s s2 hdc
        rcases hst with h | ⟨pre2, h⟩
        · rw [h] at hs
          exact ⟨t, Or.inr ⟨pre0, hs⟩, hmt⟩
        · rw [h] at hs
          refine ⟨t, Or.inr ⟨pre0 ++ '/' :: pre2, ?_⟩, hmt⟩
          rw [hs, List.append_assoc, List.cons_append]

/-- A glob of the shape `**/name` (with `name` literal) accepts exactly the
probes whose final path component is `name`. -/
theorem gsLits (cs s : List Char) :
    tokMatch (GTok.globStar :: cs.map GTok.lit) s = true ↔
      (s = cs ∨ ∃ pre, s = pre ++ '/' :: cs) := by
  constructor
  · intro h
    obtain ⟨t, hst, hm⟩ := gs_fwd s.length s _ le_rfl h
    rw [litsMatch] at hm
    subst hm
    exact hst
  · rintro (rfl | ⟨pre, rfl⟩)
    · rw [tokMatch_globStar, (litsMatch _ _).mpr rfl]
      simp
    · exact gs_reach pre.length pre _ _ le_rfl ((litsMatch _ _).mpr rfl)

theorem findPos_isSome_of_mem (q : Pattern) :
    ∀ (l : List Pattern), q ∈ l → (findPos q.original l).isSome := by
  intro l
  induction l with
  | nil => intro h; cases h
  | cons p rest ih =>
    intro h
    unfold findPos
    by_cases he : p.original = q.original
    · simp [he]
    · rcases List.mem_cons.mp h with h | h
      · subst h
        exact absurd rfl he
      · simp only [he, if_neg]
        simpa using ih h

theorem findPos_append_left (o : String) :
    ∀ (l1 l2 : List Pattern), (findPos o l1).isSome →
      findPos o (l1 ++ l2) = findPos o l1 := by
  intro l1
  induction l1 with
  | nil => intro l2 h; simp [findPos] at h
  | cons p rest ih =>
    intro l2 h
    rw [List.cons_append]
    unfold findPos
    by_cases he : p.original = o
    · simp [he]
    · unfold findPos at h
      simp only [he, if_neg] at h ⊢
      rw [ih l2 (by simpa using h)]

theorem scanSlots_cons_inert (i : Nat) (p : Pattern) (rest : List (Nat × Pattern))
    (relPath : List String) (relStr pathStr : String) (isDir : Bool)
    (h : selfSkip p relPath = true ∨ patternTest p.glob relStr pathStr isDir = false) :
    scanSlots ((i, p) :: rest) relPath relStr pathStr isDir none none =
      scanSlots rest relPath relStr pathStr isDir none none := by
  rw [scanSlots]
  rw [if_neg (by simp)]
  by_cases hs : selfSkip p relPath = true
  · rw [if_pos hs]
  · rcases h with h | h
    · exact absurd h hs
    · rw [if_neg hs, if_neg (by rw [h]; exact Bool.false_ne_true)]

/-- C5: the per-pattern match test of `IgnoreRules::check` probes a directory
query against both the relative path with a trailing `/` and the bare
relative path, except that a glob ending in `/*` whose prefix before `/*`
equals the relative path never matches; a non-directory query is probed only
against the bare relative path.  (The relative string form of a real path
never ends in `/`, which is the hypothesis.) -/
theorem claim5_directory_dual_probe (glob relStr : String) (isDir : Bool)
    (h : strEndsWith relStr ("/") = false) :
    patternTest glob relStr (mkPathStr relStr isDir) isDir =
      (if isDir then
         (if strEndsWith glob ("/*") && (relStr == strDropRight glob 2) then false
          else glob_match glob (relStr ++ ("/")) || glob_match glob relStr)
       else glob_match glob relStr) := by
  cases isDir with
  | false =>
    simp [patternTest, mkPathStr]
  | true =>
    have hpath : mkPathStr relStr true = relStr ++ ("/") := by
      unfold mkPathStr
      by_cases hempty : relStr = ""
      · subst hempty
        rfl
      · simp [hempty, h]
    have htrim : trimTrailingSlashes (relStr ++ ("/")) = relStr :=
      trimTrailingSlashes_append_slash relStr h
    unfold patternTest
    by_cases hs : strEndsWith glob ("/*") = true
    · by_cases heq : relStr = strDropRight glob 2
      · simp [hs, heq]
      · simp [hs, heq, hpath, htrim]
    · simp only [Bool.not_eq_true] at hs
      simp [hs, hpath, htrim]

/-- C4 (amended): the reverse scan of `IgnoreRules::check` never fills a slot
with a pattern whose source file lives in the queried directory itself, and if
every pattern of the list is such a self pattern the check is `NoMatch` — a
pattern from `D/.gitignore` never *matches* D itself.  (The skipped pattern's
`original` text still takes part in the arbitration's first-occurrence
position lookup, so when it duplicates a matching whitelist pattern's text it
can still flip the result of `check D` to `Ignore` — see the
counterexample. ) -/
theorem claim4_self_file_skip (patterns : List Pattern) (relPath : List String)
    (isDir : Bool) :
    (∀ i p, (scanSlots (withIdx 0 patterns).reverse relPath (joinSlash relPath)
        (mkPathStr (joinSlash relPath) isDir) isDir none none).1 = some (i, p) →
      selfSkip p relPath = false) ∧
    (∀ i p, (scanSlots (withIdx 0 patterns).reverse relPath (joinSlash relPath)
        (mkPathStr (joinSlash relPath) isDir) isDir none none).2 = some (i, p) →
      selfSkip p relPath = false) ∧
    ((∀ p ∈ patterns, selfSkip p relPath = true) →
      checkRel patterns relPath isDir = MatchResult.noMatch) := by
  refine ⟨?_, ?_, ?_⟩
  · intro i p h
    rcases scanSlots_fst_spec (withIdx 0 patterns).reverse relPath (joinSlash relPath)
        (mkPathStr (joinSlash relPath) isDir) isDir none none with
      hn | ⟨j, q, h1, _, h3, -⟩
    · rw [h] at hn
      cases hn
    · rw [h] at h1
      cases h1
      exact h3
  · intro i p h
    rcases scanSlots_snd_spec (withIdx 0 patterns).reverse relPath (joinSlash relPath)
        (mkPathStr (joinSlash relPath) isDir) isDir none none with
      hn | ⟨j, q, h1, _, h3, -⟩
    · rw [h] at hn
      cases hn
    · rw [h] at h1
      cases h1
      exact h3
  · intro hall
    have h1 : (scanSlots (withIdx 0 patterns).reverse relPath (joinSlash relPath)
        (mkPathStr (joinSlash relPath) isDir) isDir none none).1 = none := by
      rcases scanSlots_fst_spec (withIdx 0 patterns).reverse relPath (joinSlash relPath)
          (mkPathStr (joinSlash relPath) isDir) isDir none none with
        hn | ⟨j, q, h1, h2, h3, -⟩
      · exact hn
      · have := hall q (withIdx_mem 0 patterns j q (List.mem_reverse.mp h2))
        rw [this] at h3
        cases h3
    have h2 : (scanSlots (withIdx 0 patterns).reverse relPath (joinSlash relPath)
        (mkPathStr (joinSlash relPath) isDir) isDir none none).2 = none := by
      rcases scanSlots_snd_spec (withIdx 0 patterns).reverse relPath (joinSlash relPath)
          (mkPathStr (joinSlash relPath) isDir) isDir none none with
        hn | ⟨j, q, hq1, hq2, hq3, -⟩
      · exact hn
      · have := hall q (withIdx_mem 0 patterns j q (List.mem_reverse.mp hq2))
        rw [this] at hq3
        cases hq3
    simp only [checkRel]
    rw [h1, h2]
    rfl

/-- C4 counterexample to the claim as stated: the pattern `!sub` read from
`sub/.gitignore` is skipped by the scan on the directory query `sub` — yet it
*does* cause `sub` to be ignored.  With the rule list
`[File{sub/.gitignore} "!sub", Global "sub", Global "!sub"]` the two global
patterns fill the slots (ignore at position 1, whitelist at position 2), the
subtree-escape exception does not apply, and the arbitration's
`position(|p| p.original == "!sub")` finds the skipped `sub/.gitignore`
pattern at position 0, so `Some 0 > Some 1` fails and `check sub = Ignore`;
without the `sub/.gitignore` pattern the same query returns `Whitelist`. -/
theorem claim4_counterexample :
    selfSkip (Pattern.new (Source.file (["sub", ".gitignore"]) 1) ("!sub"))
      (["sub"]) = true ∧
    ({ root := [], ignore_filename := none,
       patterns := [Pattern.new (Source.file (["sub", ".gitignore"]) 1) ("!sub"),
                    Pattern.new Source.global ("sub"),
                    Pattern.new Source.global ("!sub")] } : IgnoreRules).check
      (["sub"]) true = some MatchResult.ignore ∧
    ({ root := [], ignore_filename := none,
       patterns := [Pattern.new Source.global ("sub"),
                    Pattern.new Source.global ("!sub")] } : IgnoreRules).check
      (["sub"]) true = some MatchResult.whitelist := by
  refine ⟨by decide, by decide, by decide⟩

/-- C6: for a non-directory query, the reverse scan never fills a slot with a
`Directory`-only pattern — the kind filter skips it even when its glob
matches — and a rule list of only `Directory` patterns leaves a non-directory
query at `NoMatch`. -/
theorem claim6_directory_kind_filter (patterns : List Pattern) (relPath : List String) :
    (∀ i p, (scanSlots (withIdx 0 patterns).reverse relPath (joinSlash relPath)
        (mkPathStr (joinSlash relPath) false) false none none).1 = some (i, p) →
      p.path_kind ≠ PathKind.directory) ∧
    (∀ i p, (scanSlots (withIdx 0 patterns).reverse relPath (joinSlash relPath)
        (mkPathStr (joinSlash relPath) false) false none none).2 = some (i, p) →
      p.path_kind ≠ PathKind.directory) ∧
    ((∀ p ∈ patterns, p.path_kind = PathKind.directory) →
      checkRel patterns relPath false = MatchResult.noMatch) := by
  refine ⟨?_, ?_, ?_⟩
  · intro i p h hd
    rcases scanSlots_fst_spec (withIdx 0 patterns).reverse relPath (joinSlash relPath)
        (mkPathStr (joinSlash relPath) false) false none none with
      hn | ⟨j, q, h1, -, -, -, h5, -⟩
    · rw [h] at hn
      cases hn
    · rw [h] at h1
      cases h1
      cases h5 hd
  · intro i p h hd
    rcases scanSlots_snd_spec (withIdx 0 patterns).reverse relPath (joinSlash relPath)
        (mkPathStr (joinSlash relPath) false) false none none with
      hn | ⟨j, q, h1, -, -, -, h5, -⟩
    · rw [h] at hn
      cases hn
    · rw [h] at h1
      cases h1
      cases h5 hd
  · intro hall
    have h1 : (scanSlots (withIdx 0 patterns).reverse relPath (joinSlash relPath)
        (mkPathStr (joinSlash relPath) false) false none none).1 = none := by
      rcases scanSlots_fst_spec (withIdx 0 patterns).reverse relPath (joinSlash relPath)
          (mkPathStr (joinSlash relPath) false) false none none with
        hn | ⟨j, q, h1, h2, -, -, h5, -⟩
      · exact hn
      · cases h5 (hall q (withIdx_mem 0 patterns j q (List.mem_reverse.mp h2)))
    have h2 : (scanSlots (withIdx 0 patterns).reverse relPath (joinSlash relPath)
        (mkPathStr (joinSlash relPath) false) false none none).2 = none := by
      rcases scanSlots_snd_spec (withIdx 0 patterns).reverse relPath (joinSlash relPath)
          (mkPathStr (joinSlash relPath) false) false none none with
        hn | ⟨j, q, hq1, hq2, -, -, hq5, -⟩
      · exact hn
      · cases hq5 (hall q (withIdx_mem 0 patterns j q (List.mem_reverse.mp hq2)))
    simp only [checkRel]
    rw [h1, h2]
    rfl

/-- C3: for every source and raw pattern line, the glob compiled by
`Pattern::new` is `{current_dir}/{line}` for an anchored pattern (just the
line when `current_dir` is empty) and `{current_dir}/**/{line}` for an
`Anywhere` pattern (`**/{line}` when `current_dir` is empty), with the
processed residue line; a trailing `/` is appended exactly when
`path_kind = Directory`. -/
theorem claim3_glob_composition (source : Source) (original : String) :
    (Pattern.new source original).glob =
      (if anchoredOf original then
         if currentDirOf source = "" then residue original
         else currentDirOf source ++ "/" ++ residue original
       else
         if currentDirOf source = "" then "**/" ++ residue original
         else currentDirOf source ++ "/**/" ++ residue original) ++
      (if (Pattern.new source original).path_kind = PathKind.directory then "/"
       else "") := by
  simp only [Pattern.new]
  by_cases hk : pathKindOf original = PathKind.directory <;>
    by_cases ha : anchoredOf original = true <;>
    by_cases hc : currentDirOf source = "" <;>
    simp [hk, ha, hc, strAppendEmpty]

/-- C1: when the reverse scan fills both slots, the whitelist pattern's
source directory is strictly inside the ignore pattern's source directory
(proper component-wise prefix, not equal), and the whitelist's original text
contains no `/` and no wildcard character (`*`, `?`, `[`), then
`IgnoreRules::check` returns `Ignore`. -/
theorem claim1_subtree_exception_ignores (r : IgnoreRules) (path : List String)
    (isDir : Bool) (relPath : List String) (ii wi : Nat) (ip wp : Pattern)
    (isd wsd : List String)
    (hstrip : stripPrefixL r.root path = some relPath)
    (hscan : scanSlots (withIdx 0 r.patterns).reverse relPath (joinSlash relPath)
      (mkPathStr (joinSlash relPath) isDir) isDir none none =
      (some (ii, ip), some (wi, wp)))
    (hisd : ip.source.dirPath = some isd)
    (hwsd : wp.source.dirPath = some wsd)
    (hpre : isd.isPrefixOf wsd = true)
    (hne : wsd ≠ isd)
    (hnoslash : strContains wp.original ('/') = false)
    (hnowild : pattern_has_wildcard wp.original = false) :
    r.check path isDir = some MatchResult.ignore := by
  unfold IgnoreRules.check
  rw [hstrip]
  simp only [checkRel]
  rw [hscan]
  simp only [arbitrate, subtreeException, hisd, hwsd]
  rw [if_pos]
  simp [hpre, hnoslash, hnowild, hne]

/-- C1 witness: a bare-filename whitelist `!data` read from `sub/.gitignore`
cannot resurrect `sub/data`, ignored by the pattern `data` of the root
`.gitignore`. -/
theorem claim1_witness :
    ({ root := [], ignore_filename := none,
       patterns := [Pattern.new (Source.file ([".gitignore"]) 1) ("data"),
                    Pattern.new (Source.file (["sub", ".gitignore"]) 1) ("!data")] } :
      IgnoreRules).check (["sub", "data"]) false = some MatchResult.ignore :=
  claim1_subtree_exception_ignores
    { root := [], ignore_filename := none,
      patterns := [Pattern.new (Source.file ([".gitignore"]) 1) ("data"),
                   Pattern.new (Source.file (["sub", ".gitignore"]) 1) ("!data")] }
    (["sub", "data"]) false (["sub", "data"]) 0 1
    (Pattern.new (Source.file ([".gitignore"]) 1) ("data"))
    (Pattern.new (Source.file (["sub", ".gitignore"]) 1) ("!data"))
    [] (["sub"])
    (by decide) (by decide) (by decide) (by decide) (by decide) (by decide)
    (by decide) (by decide)

/-- C2 (amended): when both slots are filled and the subtree-escape exception
does not apply, `check` returns `Whitelist` exactly when the position of the
*first* pattern in the list whose original text equals the whitelist slot's
original is greater than the position of the first pattern whose original
text equals the ignore slot's original.  (With all originals distinct these
are the slots' own insertion positions; with duplicated original text the
earlier duplicate's position is used, not the matching pattern's.) -/
theorem claim2_later_first_occurrence_wins (r : IgnoreRules) (path : List String)
    (isDir : Bool) (relPath : List String) (ii wi : Nat) (ip wp : Pattern)
    (hstrip : stripPrefixL r.root path = some relPath)
    (hscan : scanSlots (withIdx 0 r.patterns).reverse relPath (joinSlash relPath)
      (mkPathStr (joinSlash relPath) isDir) isDir none none =
      (some (ii, ip), some (wi, wp)))
    (hex : subtreeException ip wp = false) :
    (r.check path isDir = some MatchResult.whitelist ↔
      optGt (findPos wp.original r.patterns) (findPos ip.original r.patterns) = true) := by
  unfold IgnoreRules.check
  rw [hstrip]
  simp only [checkRel]
  rw [hscan]
  simp only [arbitrate, hex]
  rw [if_neg (by simp)]
  by_cases h : optGt (findPos wp.original r.patterns) (findPos ip.original r.patterns) = true
  · rw [if_pos h]
    simp [h]
  · rw [if_neg h]
    simp [h]

/-- C2 witness: with the two distinct originals `foo` then `!foo`, the
whitelist's first occurrence is later, and the check returns `Whitelist`. -/
theorem claim2_witness :
    ({ root := [], ignore_filename := none,
       patterns := [Pattern.new Source.global ("foo"),
                    Pattern.new Source.global ("!foo")] } :
        IgnoreRules).check (["foo"]) false = some MatchResult.whitelist ↔
      optGt
        (findPos (Pattern.new Source.global ("!foo")).original
          [Pattern.new Source.global ("foo"), Pattern.new Source.global ("!foo")])
        (findPos (Pattern.new Source.global ("foo")).original
          [Pattern.new Source.global ("foo"), Pattern.new Source.global ("!foo")]) = true :=
  claim2_later_first_occurrence_wins
    { root := [], ignore_filename := none,
      patterns := [Pattern.new Source.global ("foo"),
                   Pattern.new Source.global ("!foo")] }
    (["foo"]) false (["foo"]) 0 1
    (Pattern.new Source.global ("foo")) (Pattern.new Source.global ("!foo"))
    (by decide) (by decide) (by decide)

/-- C2 counterexample to the claim as stated: three global patterns `!foo`,
`foo`, `!foo` and the query `foo`.  The scan fills the slots with the ignore
at insertion position 1 and the whitelist at insertion position 2 — the
whitelist slot's pattern was inserted *later* — the subtree-escape exception
does not apply, and yet the check returns `Ignore`: the position comparison
looks up the whitelist's original text `!foo` and finds its first occurrence
at position 0. -/
theorem claim2_counterexample :
    scanSlots (withIdx 0 [Pattern.new Source.global ("!foo"),
        Pattern.new Source.global ("foo"),
        Pattern.new Source.global ("!foo")]).reverse (["foo"])
        (joinSlash (["foo"])) (mkPathStr (joinSlash (["foo"])) false) false none none =
      (some (1, Pattern.new Source.global ("foo")),
       some (2, Pattern.new Source.global ("!foo"))) ∧
    subtreeException (Pattern.new Source.global ("foo"))
      (Pattern.new Source.global ("!foo")) = false ∧
    1 < 2 ∧
    ({ root := [], ignore_filename := none,
       patterns := [Pattern.new Source.global ("!foo"),
                    Pattern.new Source.global ("foo"),
                    Pattern.new Source.global ("!foo")] } :
      IgnoreRules).check (["foo"]) false = some MatchResult.ignore := by
  refine ⟨by decide, by decide, by decide, by decide⟩

/-- C5 witness: a `dir/*`-shaped glob applied to `dir` itself, a concrete
instance of the dual-probe equation. -/
theorem claim5_witness :
    patternTest ("a/*") ("a") (mkPathStr ("a") true) true =
      (if true then
         (if strEndsWith ("a/*") ("/*") && (("a" : String) == strDropRight ("a/*") 2)
          then false
          else glob_match ("a/*") (("a" : String) ++ ("/")) || glob_match ("a/*") ("a"))
       else glob_match ("a/*") ("a")) :=
  claim5_directory_dual_probe ("a/*") ("a") true (by decide)

/-- The glob `[b-a]` — an empty character range — matches no string at all. -/
theorem brackNoMatch : ∀ (s : String), glob_match ("[b-a]") s = false := by
  intro s
  unfold glob_match
  rw [show lexGlob (("[b-a]" : String).data) = [GTok.cls false [('b', 'a')]] from rfl]
  rcases s.data with _ | ⟨d, t⟩
  · rfl
  · rw [tokMatch_cls_cons]
    have hcm : classMatch false [('b', 'a')] d = false := by
      unfold classMatch
      simp only [List.any_cons, List.any_nil, Bool.or_false]
      rcases hb1 : decide ('b' ≤ d) with _ | _
      · simp
      · rcases hb2 : decide (d ≤ 'a') with _ | _
        · simp
        · have h1 := of_decide_eq_true hb1
          have h2 := of_decide_eq_true hb2
          exact absurd (le_trans h1 h2) (by decide)
    rw [hcm]
    rfl

/-- The pattern compiled from `/[b-a]` passes no per-pattern match test. -/
theorem brackTestFalse : ∀ (relStr pathStr : String) (isDir : Bool),
    patternTest ("[b-a]") relStr pathStr isDir = false := by
  intro relStr pathStr isDir
  unfold patternTest
  split_ifs <;> simp [brackNoMatch]

/-- C8: appending a pattern whose per-pattern match test accepts no query
(through `add_patterns`/`merge_with`) leaves every result of
`IgnoreRules::check` unchanged. -/
theorem claim8_inert_pattern_append (r : IgnoreRules) (p : Pattern)
    (path : List String) (isDir : Bool)
    (h : ∀ relStr pathStr d, patternTest p.glob relStr pathStr d = false) :
    (r.addPatterns [p]).check path isDir = r.check path isDir := by
  unfold IgnoreRules.addPatterns IgnoreRules.check
  cases hstrip : stripPrefixL r.root path with
  | none => rfl
  | some relPath =>
    unfold checkRel
    rw [withIdx_append_singleton 0 r.patterns p, List.reverse_append]
    simp only [List.reverse_cons, List.reverse_nil, List.nil_append,
      List.singleton_append]
    rw [scanSlots_cons_inert _ _ _ _ _ _ _ (Or.inr (h _ _ _))]
    rcases hfst : (scanSlots (withIdx 0 r.patterns).reverse relPath (joinSlash relPath)
        (mkPathStr (joinSlash relPath) isDir) isDir none none).1 with _ | ⟨ii, ip⟩ <;>
      rcases hsnd : (scanSlots (withIdx 0 r.patterns).reverse relPath (joinSlash relPath)
        (mkPathStr (joinSlash relPath) isDir) isDir none none).2 with _ | ⟨wi, wp⟩ <;>
      simp only [arbitrate, hfst, hsnd]
    have hipmem : ip ∈ r.patterns := by
      rcases scanSlots_fst_spec (withIdx 0 r.patterns).reverse relPath (joinSlash relPath)
          (mkPathStr (joinSlash relPath) isDir) isDir none none with
        hn | ⟨j, q, h1, h2, -⟩
      · rw [hfst] at hn
        cases hn
      · rw [hfst] at h1
        cases h1
        exact withIdx_mem 0 r.patterns _ _ (List.mem_reverse.mp h2)
    have hwpmem : wp ∈ r.patterns := by
      rcases scanSlots_snd_spec (withIdx 0 r.patterns).reverse relPath (joinSlash relPath)
          (mkPathStr (joinSlash relPath) isDir) isDir none none with
        hn | ⟨j, q, h1, h2, -⟩
      · rw [hsnd] at hn
        cases hn
      · rw [hsnd] at h1
        cases h1
        exact withIdx_mem 0 r.patterns _ _ (List.mem_reverse.mp h2)
    rw [findPos_append_left _ _ _ (findPos_isSome_of_mem ip r.patterns hipmem),
      findPos_append_left _ _ _ (findPos_isSome_of_mem wp r.patterns hwpmem)]

/-- C8 witness: appending the never-matching pattern `/[b-a]` to a rule set
leaves the check of `foo` unchanged. -/
theorem claim8_witness :
    (({ root := [], ignore_filename := none,
        patterns := [Pattern.new Source.global ("foo")] } : IgnoreRules).addPatterns
        [Pattern.new Source.global ("/[b-a]")]).check (["foo"]) false =
      ({ root := [], ignore_filename := none,
         patterns := [Pattern.new Source.global ("foo")] } : IgnoreRules).check
        (["foo"]) false :=
  claim8_inert_pattern_append
    { root := [], ignore_filename := none,
      patterns := [Pattern.new Source.global ("foo")] }
    (Pattern.new Source.global ("/[b-a]")) (["foo"]) false
    (fun relStr pathStr d => by
      rw [show (Pattern.new Source.global ("/[b-a]")).glob = ("[b-a]") from rfl]
      exact brackTestFalse relStr pathStr d)

/-- C7: pattern parsing removes trailing whitespace unless the line ends in
backslash followed by a space; the line `foo\ ` keeps its escaped trailing
space and compiles to the glob `**/foo\ `, which matches exactly the probes
whose final path component is the literal `foo ` (trailing space included) —
in particular a file named `foo` does not match, while the line `foo  ` is
trimmed to `foo`. -/
theorem claim7_escaped_trailing_space :
    (∀ l : String, wsTrimmed l =
      (if strEndsWith l ("\\ ") then l else strTrimRight l)) ∧
    (Pattern.new Source.global ("foo\\ ")).glob = ("**/foo\\ ") ∧
    (Pattern.new Source.global ("foo  ")).glob = ("**/foo") ∧
    (∀ s : List Char,
      tokMatch (lexGlob (String.data ("**/foo\\ "))) s = true ↔
        (s = String.data ("foo ") ∨ ∃ pre, s = pre ++ '/' :: String.data ("foo "))) ∧
    checkRel [Pattern.new Source.global ("foo\\ ")] (["foo"]) false =
      MatchResult.noMatch ∧
    checkRel [Pattern.new Source.global ("foo\\ ")] (["foo "]) false =
      MatchResult.ignore := by
  refine ⟨?_, by decide, by decide, ?_, by decide, by decide⟩
  · intro l
    unfold wsTrimmed
    by_cases h : strEndsWith l ("\\ ") = true <;> simp [h]
  · intro s
    rw [show lexGlob (String.data ("**/foo\\ ")) =
      GTok.globStar :: (String.data ("foo ")).map GTok.lit by decide]
    exact gsLits (String.data ("foo ")) s

/-- C9 (amended): `IgnoreRules::check` hits its `expect` panic exactly when
the queried path is not under `root`, and is total (returns one of the three
`MatchResult`s) for every path under `root`; `content_to_patterns` hits its
`expect` panic exactly when the source file is not under `ignore_root` *and*
at least one line survives the blank/comment filter (with no surviving lines
the closure containing the `expect` never runs), and never panics for a
global source. -/
theorem claim9_path_escape_fail_fast :
    (∀ (r : IgnoreRules) (path : List String) (isDir : Bool),
       r.check path isDir = none ↔ r.root.isPrefixOf path = false) ∧
    (∀ (r : IgnoreRules) (path : List String) (isDir : Bool),
       r.root.isPrefixOf path = true →
         ∃ m : MatchResult, r.check path isDir = some m) ∧
    (∀ (root src : List String) (content : String),
       content_to_patterns root (some src) content = none ↔
         (root.isPrefixOf src = false ∧ effectiveLines content ≠ [])) ∧
    (∀ (root : List String) (content : String),
       content_to_patterns root none content ≠ none) := by
  refine ⟨?_, ?_, ?_, ?_⟩
  · intro r path isDir
    unfold IgnoreRules.check stripPrefixL
    by_cases h : r.root.isPrefixOf path = true <;> simp [h]
  · intro r path isDir h
    unfold IgnoreRules.check stripPrefixL
    simp [h]
  · intro root src content
    unfold content_to_patterns
    by_cases hp : root.isPrefixOf src = true
    · have hsome : ∀ il : Nat × String,
          ((stripPrefixL root src).map
            (fun rp => Pattern.new (Source.file rp (il.1 + 1)) il.2)).isSome := by
        intro il
        unfold stripPrefixL
        simp [hp]
      have := mapMO_isSome_of
        (fun il : Nat × String => (stripPrefixL root src).map
          (fun rp => Pattern.new (Source.file rp (il.1 + 1)) il.2))
        ((effectiveLines content).map
          (fun il => (il.1, if !(strEndsWith il.2 ("\\ ")) then strTrimRight il.2 else il.2)))
        (fun a _ => hsome a)
      constructor
      · intro h
        rw [h] at this
        simp at this
      · rintro ⟨h1, -⟩
        rw [hp] at h1
        cases h1
    · have hnone : ∀ il : Nat × String,
          ((stripPrefixL root src).map
            (fun rp => Pattern.new (Source.file rp (il.1 + 1)) il.2)) = none := by
        intro il
        unfold stripPrefixL
        simp [hp]
      constructor
      · intro h
        refine ⟨Bool.eq_false_iff.mpr hp, ?_⟩
        intro he
        rw [he] at h
        simp [mapMO] at h
      · rintro ⟨-, hne⟩
        refine mapMO_none_of _ _ (fun a => hnone a) ?_
        simpa using hne
  · intro root content
    intro h
    have := mapMO_isSome_of
      (fun il : Nat × String => some (Pattern.new Source.global il.2))
      ((effectiveLines content).map
        (fun il => (il.1, if !(strEndsWith il.2 ("\\ ")) then strTrimRight il.2 else il.2)))
      (fun a _ => rfl)
    rw [show content_to_patterns root none content =
      mapMO (fun il : Nat × String => some (Pattern.new Source.global il.2))
        ((effectiveLines content).map
          (fun il => (il.1, if !(strEndsWith il.2 ("\\ ")) then strTrimRight il.2 else il.2)))
      from rfl] at h
    rw [h] at this
    simp at this

/-- C9 counterexample to the claim as stated: with an empty ignore-file
content, `content_to_patterns` does not panic even though the source file
path is not under the ignore root — the closure containing the `expect`
never runs because no line survives the filter. -/
theorem claim9_counterexample :
    List.isPrefixOf (["root"]) (["elsewhere", "f"]) = false ∧
    content_to_patterns (["root"]) (some (["elsewhere", "f"])) ("") = some [] := by
  constructor
  · decide
  · decide

/-- C10: `from_global_patterns` converts every line — blank lines and `#`
comment lines included — into a pattern, while `content_to_patterns` filters
them out; in particular the rule set built from a global string with a
comment line and a blank line contains a pattern compiled from the comment
text and one compiled from the empty line. -/
theorem claim10_global_lines_unfiltered :
    (∀ (root : List String) (fn : Option String) (given : String),
       (IgnoreRules.from_global_patterns root fn given).patterns =
         (rustLines given).map (Pattern.new Source.global)) ∧
    ((IgnoreRules.from_global_patterns [] none ("a\n# c\n\nb")).patterns.map
        Pattern.original = [("a"), ("# c"), (""), ("b")]) ∧
    Pattern.new Source.global ("# c") ∈
      (IgnoreRules.from_global_patterns [] none ("a\n# c\n\nb")).patterns ∧
    Pattern.new Source.global ("") ∈
      (IgnoreRules.from_global_patterns [] none ("a\n# c\n\nb")).patterns ∧
    content_to_patterns [] none ("a\n# c\n\nb") =
      some [Pattern.new Source.global ("a"), Pattern.new Source.global ("b")] := by
  refine ⟨fun _ _ _ => rfl, by decide, by decide, by decide, by decide⟩

end XvcWalker
